import Mathlib

/-!
Verification of the fans-python jober system against its specification.

The source tree holds the monitoring dashboard frontend: the api request
module, the dashboard app (useRuns, RunOutput) and the query-string utility
params.js.  Those parts are embedded directly from the source.  The engine
itself (scheduler core, cron computation, kill_run, orphan guard) is not part
of the source tree; its operations are modelled from the specification text,
and each such definition is marked `Modelled from the spec:`.
-/

/-- JSON-like values appearing in request bodies and query parameters. -/
inductive JVal where
  | null
  | undef
  | str (s : String)
  | bool (b : Bool)
  | num (n : Int)
  deriving DecidableEq

/-- The options object destructured by the request function:
    raw, binary, blob, throwError (here throwErr), suppressError flags. -/
structure ReqOpts where
  raw : Bool := false
  binary : Bool := false
  blob : Bool := false
  throwErr : Bool := false  -- throwError in the source; renamed since throwError is a Lean keyword
  suppressError : Bool := false
  deriving DecidableEq

/-- An HTTP response as observed by the request function: the status code and
    the body under its read methods.  jsonBody is none when the body fails to
    parse as JSON; bodyId stands for the identity of the raw body bytes, which
    blob() and arrayBuffer() both expose. -/
structure HttpRes where
  status : Nat
  jsonBody : Option JVal
  textBody : String
  bodyId : Nat
  deriving DecidableEq

/-- A value the promise returned by request can settle with. -/
inductive RVal where
  | blobOf (bodyId : Nat)
  | bufferOf (bodyId : Nat)
  | textOf (s : String)
  | jsonOf (v : JVal)
  | resOf (r : HttpRes)
  deriving DecidableEq

/-- How the promise returned by request settles. -/
inductive Outcome where
  | resolved (v : RVal)
  | rejected (v : RVal)
  | unsettled
  deriving DecidableEq

/-- The response-handling tail of the request function (api module lines
    113-149): how the returned promise settles once the response arrives.
    resolve is called only in the 200 branch; in the non-200 branch reject is
    called only when raw is set (with the response object) or when throwError
    is set (with the parsed error body).  A throw inside the async executor —
    the JSON parse failure rethrow — settles nothing, so those paths and the
    non-raw error path without throwError leave the promise unsettled. -/
def requestSettle (o : ReqOpts) (res : HttpRes) : Outcome :=
  if res.status = 200 then
    if o.blob then Outcome.resolved (RVal.blobOf res.bodyId)
    else if o.binary then Outcome.resolved (RVal.bufferOf res.bodyId)
    else if o.raw then Outcome.resolved (RVal.textOf res.textBody)
    else
      match res.jsonBody with
      | some v => Outcome.resolved (RVal.jsonOf v)
      | none => Outcome.unsettled
  else
    if !o.raw then
      match res.jsonBody with
      | some e => if o.throwErr then Outcome.rejected (RVal.jsonOf e) else Outcome.unsettled
      | none => Outcome.unsettled
    else Outcome.rejected (RVal.resOf res)

/-- Claim C2: for every HTTP response with status 200, the request function
    resolves with the body as a Blob when the blob option is set, otherwise as
    an ArrayBuffer when the binary option is set, otherwise as undecoded text
    when the raw option is set, and otherwise as the JSON-parsed body. -/
theorem c2_request_200_result (o : ReqOpts) (res : HttpRes) (h200 : res.status = 200) :
    (o.blob = true → requestSettle o res = Outcome.resolved (RVal.blobOf res.bodyId)) ∧
    (o.blob = false → o.binary = true →
      requestSettle o res = Outcome.resolved (RVal.bufferOf res.bodyId)) ∧
    (o.blob = false → o.binary = false → o.raw = true →
      requestSettle o res = Outcome.resolved (RVal.textOf res.textBody)) ∧
    (∀ v, o.blob = false → o.binary = false → o.raw = false → res.jsonBody = some v →
      requestSettle o res = Outcome.resolved (RVal.jsonOf v)) := by
  refine ⟨?_, ?_, ?_, ?_⟩ <;> intros <;> simp_all [requestSettle]

/-- Witness for C2: a concrete 200 response with a JSON body resolves with the
    parsed JSON value. -/
theorem c2_request_200_result_witness :
    requestSettle {} { status := 200, jsonBody := some (JVal.num 1), textBody := "x", bodyId := 0 }
      = Outcome.resolved (RVal.jsonOf (JVal.num 1)) :=
  (c2_request_200_result {}
    { status := 200, jsonBody := some (JVal.num 1), textBody := "x", bodyId := 0 }
    rfl).2.2.2 (JVal.num 1) rfl rfl rfl rfl

/-- Claim C3: for every HTTP response whose status is not 200, when the raw
    option is false and the throwError option is not set, the promise returned
    by the request function never settles: it neither resolves nor rejects. -/
theorem c3_request_error_unsettled (o : ReqOpts) (res : HttpRes)
    (hs : res.status ≠ 200) (hraw : o.raw = false) (hthrow : o.throwErr = false) :
    requestSettle o res = Outcome.unsettled := by
  unfold requestSettle
  rw [if_neg hs]
  cases hj : res.jsonBody <;> simp [hraw, hthrow, hj]

/-- Witness for C3: a concrete 404 response with default options (raw and
    throwError unset) leaves the promise unsettled. -/
theorem c3_request_error_unsettled_witness :
    requestSettle {} { status := 404, jsonBody := some (JVal.str "e"), textBody := "", bodyId := 0 }
      = Outcome.unsettled :=
  c3_request_error_unsettled {}
    { status := 404, jsonBody := some (JVal.str "e"), textBody := "", bodyId := 0 }
    (by decide) rfl rfl

/-- A run record as listed by the /api/runs endpoint data field; run_id
    assignment is global and monotonic, so larger run_id means more recent. -/
structure RunRec where
  run_id : Nat
  deriving DecidableEq

/-- The useRuns hook (dashboard app lines 145-157): the runs state is set to
    the data field of the /api/runs response for the job, reversed. -/
def useRunsList (resData : List RunRec) : List RunRec := resData.reverse

/-- Claim C1: the runs list produced by useRuns is exactly the reversal of the
    list returned by the /api/runs query, so a per-job history ordered
    most-recent-last (run ids ascending) is shown most-recent-first (run ids
    descending). -/
theorem c1_useRuns_reversal (resData : List RunRec)
    (hist : resData.Pairwise (fun a b => a.run_id ≤ b.run_id)) :
    useRunsList resData = resData.reverse ∧
    (useRunsList resData).Pairwise (fun a b => b.run_id ≤ a.run_id) :=
  ⟨rfl, List.pairwise_reverse.mpr hist⟩

/-- Witness for C1: a concrete two-run history ordered most-recent-last is
    reversed into most-recent-first order. -/
theorem c1_useRuns_reversal_witness :
    useRunsList [RunRec.mk 1, RunRec.mk 2] = [RunRec.mk 2, RunRec.mk 1] ∧
    (useRunsList [RunRec.mk 1, RunRec.mk 2]).Pairwise (fun a b => b.run_id ≤ a.run_id) :=
  c1_useRuns_reversal [RunRec.mk 1, RunRec.mk 2] (by decide)

/-- One dashboard API request: method, path, query args as key-value pairs,
    and the raw flag from the request options. -/
structure ApiReq where
  method : String
  path : String
  args : List (String × String)
  raw : Bool
  deriving DecidableEq

/-- The RunOutput component (dashboard app lines 87-111): the single output
    request the dashboard makes for a run — a GET to /api/logs carrying the
    job id and the run id, with the raw option set. -/
def runOutputReq (jobId runId : String) : ApiReq :=
  { method := "GET"
    path := "/api/logs"
    args := [("job_id", jobId), ("run_id", runId)]
    raw := true }

/-- Claim C4 counterexample: the output request the dashboard makes for a
    concrete run carries no mode parameter (and no count n) at all — its query
    keys are exactly job_id and run_id. -/
theorem c4_no_mode_counterexample :
    (runOutputReq "j0" "r0").args.map Prod.fst = ["job_id", "run_id"] ∧
    "mode" ∉ (runOutputReq "j0" "r0").args.map Prod.fst ∧
    "n" ∉ (runOutputReq "j0" "r0").args.map Prod.fst := by
  refine ⟨rfl, ?_, ?_⟩ <;> decide

/-- Claim C4 amended: every output request made by the dashboard for a run is
    a raw GET to /api/logs whose query names exactly the job id and the run
    id; it names no mode (full, head or tail) and supplies no count n — the
    full output is fetched implicitly. -/
theorem c4_output_request_shape (jobId runId : String) :
    (runOutputReq jobId runId).method = "GET" ∧
    (runOutputReq jobId runId).path = "/api/logs" ∧
    (runOutputReq jobId runId).raw = true ∧
    (runOutputReq jobId runId).args.map Prod.fst = ["job_id", "run_id"] :=
  ⟨rfl, rfl, rfl, rfl⟩

/-- JS loose equality value == null: true exactly for null and undefined. -/
def isNullish : JVal → Bool
  | JVal.null => true
  | JVal.undef => true
  | _ => false

/-- Query parameters as parsed by qs.parse: an ordered association object. -/
abbrev QParams := List (String × JVal)

/-- Lookup of an own property of the params object. -/
def lookupKey : QParams → String → Option JVal
  | [], _ => none
  | (k, v) :: ps, key => if k = key then some v else lookupKey ps key

/-- JS property read params[key]: undefined when the key is absent. -/
def jsGet (ps : QParams) (key : String) : JVal := (lookupKey ps key).getD JVal.undef

/-- JS delete params[key]. -/
def removeKey : QParams → String → QParams
  | [], _ => []
  | (k, v) :: ps, key => if k = key then removeKey ps key else (k, v) :: removeKey ps key

/-- JS assignment params[key] = value: overwrite in place, append when new. -/
def writeKey : QParams → String → JVal → QParams
  | [], key, v => [(key, v)]
  | (k, w) :: ps, key, v => if k = key then (k, v) :: ps else (k, w) :: writeKey ps key v

/-- One iteration of the field loop in setQuery (params.js lines 55-63): skip
    when params[key] is strictly equal to the value; delete the key when the
    value is loosely null (null or undefined); otherwise assign it. -/
def applyField (ps : QParams) (kv : String × JVal) : QParams :=
  if jsGet ps kv.1 ≠ kv.2 then
    if isNullish kv.2 then removeKey ps kv.1
    else writeKey ps kv.1 kv.2
  else ps

/-- setQuery without the clear option (params.js lines 43-73): the current
    location query is parsed and the fields are folded over it; the result is
    what qs.stringify serializes into the navigated-to URL. -/
def setQueryParams (current : QParams) (fields : List (String × JVal)) : QParams :=
  fields.foldl applyField current

theorem lookupKey_mem (ps : QParams) (key : String) (w : JVal)
    (h : lookupKey ps key = some w) : (key, w) ∈ ps := by
  induction ps with
  | nil => simp [lookupKey] at h
  | cons p rest ih =>
    obtain ⟨k, v⟩ := p
    by_cases hk : k = key
    · subst hk
      simp [lookupKey] at h
      simp [h]
    · simp [lookupKey, hk] at h
      exact List.mem_cons_of_mem _ (ih h)

theorem lookupKey_removeKey_self (ps : QParams) (key : String) :
    lookupKey (removeKey ps key) key = none := by
  induction ps with
  | nil => rfl
  | cons p rest ih =>
    obtain ⟨k, v⟩ := p
    by_cases hk : k = key
    · simp [removeKey, hk, ih]
    · simp [removeKey, lookupKey, hk, ih]

theorem lookupKey_removeKey_other (ps : QParams) (key k : String) (h : k ≠ key) :
    lookupKey (removeKey ps key) k = lookupKey ps k := by
  induction ps with
  | nil => rfl
  | cons p rest ih =>
    obtain ⟨k0, v⟩ := p
    by_cases hk : k0 = key
    · subst hk
      simp [removeKey, lookupKey, Ne.symm h, ih]
    · by_cases hk2 : k0 = k <;> simp [removeKey, lookupKey, hk, hk2, h, ih]

theorem lookupKey_writeKey_self (ps : QParams) (key : String) (v : JVal) :
    lookupKey (writeKey ps key v) key = some v := by
  induction ps with
  | nil => simp [writeKey, lookupKey]
  | cons p rest ih =>
    obtain ⟨k0, w⟩ := p
    by_cases hk : k0 = key <;> simp [writeKey, lookupKey, hk, ih]

theorem lookupKey_writeKey_other (ps : QParams) (key k : String) (v : JVal) (h : k ≠ key) :
    lookupKey (writeKey ps key v) k = lookupKey ps k := by
  induction ps with
  | nil => simp [writeKey, lookupKey, Ne.symm h]
  | cons p rest ih =>
    obtain ⟨k0, w⟩ := p
    by_cases hk : k0 = key
    · subst hk
      simp [writeKey, lookupKey, Ne.symm h]
    · by_cases hk2 : k0 = k <;> simp [writeKey, lookupKey, hk, hk2, h, ih]

theorem lookupKey_applyField_other (ps : QParams) (kv : String × JVal) (k : String)
    (h : k ≠ kv.1) : lookupKey (applyField ps kv) k = lookupKey ps k := by
  unfold applyField
  split
  · split
    · exact lookupKey_removeKey_other ps kv.1 k h
    · exact lookupKey_writeKey_other ps kv.1 k kv.2 h
  · rfl

theorem mem_removeKey (ps : QParams) (key : String) (p : String × JVal)
    (h : p ∈ removeKey ps key) : p ∈ ps := by
  induction ps with
  | nil => simp [removeKey] at h
  | cons q rest ih =>
    obtain ⟨k0, w⟩ := q
    by_cases hk : k0 = key
    · simp only [removeKey, if_pos hk] at h
      exact List.mem_cons_of_mem _ (ih h)
    · simp only [removeKey, if_neg hk, List.mem_cons] at h
      rcases h with h2 | h2
      · simp [h2]
      · exact List.mem_cons_of_mem _ (ih h2)

theorem mem_writeKey (ps : QParams) (key : String) (v : JVal) (p : String × JVal)
    (h : p ∈ writeKey ps key v) : p ∈ ps ∨ p = (key, v) := by
  induction ps with
  | nil =>
    simp only [writeKey, List.mem_singleton] at h
    exact Or.inr h
  | cons q rest ih =>
    obtain ⟨k0, w⟩ := q
    by_cases hk : k0 = key
    · simp only [writeKey, if_pos hk, List.mem_cons] at h
      rcases h with h2 | h2
      · exact Or.inr (by simp [h2, hk])
      · exact Or.inl (List.mem_cons_of_mem _ h2)
    · simp only [writeKey, if_neg hk, List.mem_cons] at h
      rcases h with h2 | h2
      · exact Or.inl (by simp [h2])
      · rcases ih h2 with h3 | h3
        · exact Or.inl (List.mem_cons_of_mem _ h3)
        · exact Or.inr h3

theorem cleanVals_applyField (ps : QParams) (kv : String × JVal)
    (hclean : ∀ p ∈ ps, isNullish p.2 = false) :
    ∀ p ∈ applyField ps kv, isNullish p.2 = false := by
  intro p hp
  by_cases hg : jsGet ps kv.1 ≠ kv.2
  · by_cases hnull : isNullish kv.2 = true
    · rw [applyField, if_pos hg, if_pos hnull] at hp
      exact hclean p (mem_removeKey ps kv.1 p hp)
    · rw [applyField, if_pos hg, if_neg hnull] at hp
      rcases mem_writeKey ps kv.1 kv.2 p hp with h | h
      · exact hclean p h
      · subst h
        cases hb : isNullish kv.2
        · rfl
        · exact absurd hb hnull
  · rw [applyField, if_neg hg] at hp
    exact hclean p hp

theorem lookupKey_applyField_self_nullish (ps : QParams) (key : String) (v : JVal)
    (hn : isNullish v = true) (hclean : ∀ p ∈ ps, isNullish p.2 = false) :
    lookupKey (applyField ps (key, v)) key = none := by
  unfold applyField
  cases hl : lookupKey ps key with
  | none =>
    cases v with
    | null => simp [jsGet, hl, isNullish, lookupKey_removeKey_self]
    | undef => simp [jsGet, hl]
    | str s => simp [isNullish] at hn
    | bool b => simp [isNullish] at hn
    | num n => simp [isNullish] at hn
  | some w =>
    have hw : isNullish w = false := hclean (key, w) (lookupKey_mem ps key w hl)
    have hne : w ≠ v := by
      intro he
      rw [he, hn] at hw
      exact Bool.false_ne_true hw.symm
    simp [jsGet, hl, hne, hn, lookupKey_removeKey_self]

theorem setQueryParams_frame (fields : List (String × JVal)) (current : QParams)
    (key : String) (h : key ∉ fields.map Prod.fst) :
    lookupKey (setQueryParams current fields) key = lookupKey current key := by
  induction fields generalizing current with
  | nil => rfl
  | cons kv rest ih =>
    simp only [List.map_cons, List.mem_cons, not_or] at h
    have step : setQueryParams current (kv :: rest) = setQueryParams (applyField current kv) rest := rfl
    rw [step, ih (applyField current kv) h.2,
      lookupKey_applyField_other current kv key h.1]

theorem setQueryParams_removes (fields : List (String × JVal)) (current : QParams)
    (key : String) (v : JVal)
    (hclean : ∀ p ∈ current, isNullish p.2 = false)
    (hnodup : (fields.map Prod.fst).Nodup)
    (hmem : (key, v) ∈ fields) (hn : isNullish v = true) :
    lookupKey (setQueryParams current fields) key = none := by
  induction fields generalizing current with
  | nil => simp at hmem
  | cons kv rest ih =>
    have step : setQueryParams current (kv :: rest) = setQueryParams (applyField current kv) rest := rfl
    rw [step]
    rcases List.mem_cons.mp hmem with h | h
    · subst h
      have hout : key ∉ rest.map Prod.fst := by
        simpa using (List.nodup_cons.mp hnodup).1
      rw [setQueryParams_frame rest (applyField current (key, v)) key hout]
      exact lookupKey_applyField_self_nullish current key v hn hclean
    · exact ih (applyField current kv)
        (cleanVals_applyField current kv hclean) (List.nodup_cons.mp hnodup).2 h

/-- Claim C10: for every call setQuery(fields) without the clear option, over a
    current query parsed from the URL (whose values are never null or
    undefined), every existing query parameter whose key is not in fields keeps
    its value unchanged in the params serialized into the navigated-to URL, and
    every key in fields whose value is null or undefined is removed. -/
theorem c10_setQuery_frame_and_remove (current : QParams) (fields : List (String × JVal))
    (key : String) (hclean : ∀ p ∈ current, isNullish p.2 = false) :
    (key ∉ fields.map Prod.fst →
      lookupKey (setQueryParams current fields) key = lookupKey current key) ∧
    (∀ v, (fields.map Prod.fst).Nodup → (key, v) ∈ fields → isNullish v = true →
      lookupKey (setQueryParams current fields) key = none) := by
  constructor
  · intro h
    exact setQueryParams_frame fields current key h
  · intro v hnodup hmem hn
    exact setQueryParams_removes fields current key v hclean hnodup hmem hn

/-- Witness for C10: with current query a=1, b=2 and fields b=null, c=3, the
    untouched key a keeps its value and the nulled key b is removed. -/
theorem c10_setQuery_frame_and_remove_witness :
    lookupKey
      (setQueryParams [("a", JVal.str "1"), ("b", JVal.str "2")]
        [("b", JVal.null), ("c", JVal.str "3")]) "a"
      = lookupKey [("a", JVal.str "1"), ("b", JVal.str "2")] "a" ∧
    lookupKey
      (setQueryParams [("a", JVal.str "1"), ("b", JVal.str "2")]
        [("b", JVal.null), ("c", JVal.str "3")]) "b" = none :=
  ⟨(c10_setQuery_frame_and_remove [("a", JVal.str "1"), ("b", JVal.str "2")]
      [("b", JVal.null), ("c", JVal.str "3")] "a" (by decide)).1 (by decide),
   (c10_setQuery_frame_and_remove [("a", JVal.str "1"), ("b", JVal.str "2")]
      [("b", JVal.null), ("c", JVal.str "3")] "b" (by decide)).2 JVal.null
      (by decide) (by decide) rfl⟩

/-- JS String.startsWith over strings modelled as char lists. -/
def lstartsWith : List Char → List Char → Bool
  | [], _ => true
  | _ :: _, [] => false
  | p :: ps, c :: cs => p == c && lstartsWith ps cs

/-- JS String.endsWith over strings modelled as char lists. -/
def lendsWith (pat s : List Char) : Bool := lstartsWith pat.reverse s.reverse

/-- The literal "http" tested by path.startsWith. -/
def httpChars : List Char := ['h', 't', 't', 'p']

/-- The literal ".fans656.me" tested against the URL hostname. -/
def fmeHost : List Char := ['.', 'f', 'a', 'n', 's', '6', '5', '6', '.', 'm', 'e']

/-- The characters at which the authority part of a URL ends. -/
def isAuthorityEnd (c : Char) : Bool := c == '/' || c == ':' || c == '?' || c == '#'

/-- The authority prefix of a string: characters before the authority end. -/
def takeHost : List Char → List Char
  | [] => []
  | c :: cs => if isAuthorityEnd c then [] else c :: takeHost cs

/-- The remainder after the first occurrence of "//", if any. -/
def afterSlashes : List Char → Option (List Char)
  | [] => none
  | c :: cs => if c = '/' ∧ cs.head? = some '/' then some cs.tail else afterSlashes cs

/-- Model of new URL(path).hostname for the http(s) URLs the request function
    fetches: the lowercased authority after the first "//", up to the first of
    '/', ':', '?' or '#'; empty when the string has no "//" (there the URL
    constructor throws and the request is never sent, so no header is ever
    attached either). -/
def hostnameOf (s : List Char) : List Char :=
  match afterSlashes s with
  | some r => (takeHost r).map Char.toLower
  | none => []

/-- The token-attachment condition of the request function (api module line
    104): the fetched path starts with http and its URL hostname ends with
    .fans656.me. -/
def sendsToken (effPath : List Char) : Bool :=
  lstartsWith httpChars effPath && lendsWith fmeHost (hostnameOf effPath)

/-- The path actually fetched (api module lines 95-97): when args are given,
    their qs.stringify serialization is appended after a question mark. -/
def effectivePath (path : List Char) (queryStr : Option (List Char)) : List Char :=
  match queryStr with
  | some q => path ++ '?' :: q
  | none => path

/-- The header name "fme-token". -/
def fmeTokenChars : List Char := ['f', 'm', 'e', '-', 't', 'o', 'k', 'e', 'n']

/-- The header name "Content-Type". -/
def contentTypeChars : List Char :=
  ['C', 'o', 'n', 't', 'e', 'n', 't', '-', 'T', 'y', 'p', 'e']

/-- The header value "application/json". -/
def appJsonChars : List Char :=
  ['a', 'p', 'p', 'l', 'i', 'c', 'a', 't', 'i', 'o', 'n', '/', 'j', 's', 'o', 'n']

/-- The headers object built by the request function (api module lines
    94-106): a Content-Type entry for POST, and the fme-token cookie as a
    header exactly when the token-attachment condition holds on the fetched
    path; the header carries whatever the token cookie holds (none when the
    cookie is absent). -/
def requestHeaders (post : Bool) (effPath : List Char) (token : Option (List Char)) :
    List (List Char × Option (List Char)) :=
  let base : List (List Char × Option (List Char)) :=
    if post then [(contentTypeChars, some appJsonChars)] else []
  if sendsToken effPath then base ++ [(fmeTokenChars, token)] else base

theorem lstartsWith_http_append (path q : List Char) :
    lstartsWith httpChars (path ++ '?' :: q) = lstartsWith httpChars path := by
  match path with
  | [] => simp [httpChars, lstartsWith]
  | [a] => simp [httpChars, lstartsWith]
  | [a, b] => simp [httpChars, lstartsWith]
  | [a, b, c] => simp [httpChars, lstartsWith]
  | a :: b :: c :: d :: rest => simp [httpChars, lstartsWith]

theorem afterSlashes_none_of_no_slash (s : List Char) (h : '/' ∉ s) :
    afterSlashes s = none := by
  induction s with
  | nil => rfl
  | cons c cs ih =>
    simp only [List.mem_cons, not_or] at h
    have hc : ¬(c = '/' ∧ cs.head? = some '/') := fun hcc => h.1 hcc.1.symm
    simp only [afterSlashes, if_neg hc]
    exact ih h.2

theorem afterSlashes_append_of_some (path r x : List Char)
    (hx : x.head? ≠ some '/')
    (h : afterSlashes path = some r) :
    afterSlashes (path ++ x) = some (r ++ x) := by
  induction path with
  | nil => simp [afterSlashes] at h
  | cons c cs ih =>
    by_cases hc : c = '/' ∧ cs.head? = some '/'
    · obtain ⟨hc1, hc2⟩ := hc
      cases cs with
      | nil => simp at hc2
      | cons c2 cs2 =>
        have hc2e : c2 = '/' := by simpa using hc2
        rw [afterSlashes, if_pos ⟨hc1, hc2⟩] at h
        simp only [List.tail_cons, Option.some_inj] at h
        rw [List.cons_append, List.cons_append, afterSlashes,
          if_pos ⟨hc1, by simp [hc2e]⟩]
        simp [h]
    · rw [afterSlashes, if_neg hc] at h
      have hcond2 : ¬(c = '/' ∧ (cs ++ x).head? = some '/') := by
        intro hcc
        cases cs with
        | nil => exact hx (by simpa using hcc.2)
        | cons c2 cs2 => exact hc ⟨hcc.1, by simpa using hcc.2⟩
      rw [List.cons_append, afterSlashes, if_neg hcond2]
      exact ih h

theorem afterSlashes_append_none (path q : List Char) (hq : '/' ∉ q)
    (h : afterSlashes path = none) :
    afterSlashes (path ++ '?' :: q) = none := by
  induction path with
  | nil =>
    have hqn : afterSlashes q = none := afterSlashes_none_of_no_slash q hq
    have hcond : ¬(('?' : Char) = '/' ∧ q.head? = some '/') := by
      intro hcc
      exact absurd hcc.1 (by decide)
    simp only [List.nil_append, afterSlashes, if_neg hcond]
    exact hqn
  | cons c cs ih =>
    by_cases hc : c = '/' ∧ cs.head? = some '/'
    · rw [afterSlashes, if_pos hc] at h
      exact absurd h (by simp)
    · rw [afterSlashes, if_neg hc] at h
      have hcond2 : ¬(c = '/' ∧ (cs ++ '?' :: q).head? = some '/') := by
        intro hcc
        cases cs with
        | nil =>
          have hqs : ('?' : Char) = '/' := by simpa using hcc.2
          exact absurd hqs (by decide)
        | cons c2 cs2 => exact hc ⟨hcc.1, by simpa using hcc.2⟩
      rw [List.cons_append, afterSlashes, if_neg hcond2]
      exact ih h

theorem takeHost_append_qmark (r q : List Char) :
    takeHost (r ++ '?' :: q) = takeHost r := by
  induction r with
  | nil => simp [takeHost, isAuthorityEnd]
  | cons c cs ih =>
    by_cases hc : isAuthorityEnd c = true
    · simp [takeHost, hc]
    · simp [takeHost, hc, ih]

theorem hostnameOf_append_query (path q : List Char) (hq : '/' ∉ q) :
    hostnameOf (path ++ '?' :: q) = hostnameOf path := by
  cases h : afterSlashes path with
  | some r =>
    have h2 := afterSlashes_append_of_some path r ('?' :: q) (by simp) h
    rw [hostnameOf, hostnameOf, h, h2]
    simp [takeHost_append_qmark]
  | none =>
    have h2 := afterSlashes_append_none path q hq h
    rw [hostnameOf, hostnameOf, h, h2]

theorem sendsToken_effectivePath (path : List Char) (qo : Option (List Char))
    (hq : ∀ q, qo = some q → '/' ∉ q) :
    sendsToken (effectivePath path qo) = sendsToken path := by
  cases qo with
  | none => rfl
  | some q =>
    rw [effectivePath, sendsToken, sendsToken, lstartsWith_http_append,
      hostnameOf_append_query path q (hq q rfl)]

theorem fmeToken_mem_headers (post : Bool) (effPath : List Char)
    (token : Option (List Char)) :
    (∃ v, (fmeTokenChars, v) ∈ requestHeaders post effPath token) ↔
      sendsToken effPath = true := by
  by_cases hs : sendsToken effPath = true
  · constructor
    · intro _
      exact hs
    · intro _
      refine ⟨token, ?_⟩
      cases post <;> simp [requestHeaders, hs]
  · constructor
    · rintro ⟨v, hv⟩
      exfalso
      cases post <;> simp [requestHeaders, hs] at hv
      · exact (by decide : fmeTokenChars ≠ contentTypeChars) hv.1
    · intro hcon
      exact absurd hcon hs

/-- Claim C9: the request function attaches the fme-token cookie as a request
    header if and only if the target path starts with http and its URL
    hostname ends with .fans656.me; for a request to any other host the token
    is never sent, whatever the cookie value (token is universally
    quantified and absent from the right-hand side).  queryStr stands for the
    qs.stringify output appended to the path, which is percent-encoded and
    hence free of '/'. -/
theorem c9_token_attachment (post : Bool) (path : List Char)
    (queryStr : Option (List Char)) (token : Option (List Char))
    (hq : ∀ q, queryStr = some q → '/' ∉ q) :
    (∃ v, (fmeTokenChars, v) ∈ requestHeaders post (effectivePath path queryStr) token) ↔
      (lstartsWith httpChars path = true ∧ lendsWith fmeHost (hostnameOf path) = true) := by
  rw [fmeToken_mem_headers, sendsToken_effectivePath path queryStr hq, sendsToken,
    Bool.and_eq_true]

/-- Witness for C9: a concrete GET to http://a.fans656.me with query x=1 and
    an absent cookie attaches the header (and the equivalence evaluates). -/
theorem c9_token_attachment_witness :
    (∃ v, (fmeTokenChars, v) ∈
        requestHeaders false (effectivePath "http://a.fans656.me".toList (some "x=1".toList)) none) ↔
      (lstartsWith httpChars "http://a.fans656.me".toList = true ∧
        lendsWith fmeHost (hostnameOf "http://a.fans656.me".toList) = true) :=
  c9_token_attachment false "http://a.fans656.me".toList (some "x=1".toList) none
    (by intro q hqe; cases hqe; decide)

/-- The lifecycle states of a Run. -/
inductive RState where
  | pending
  | running
  | succeeded
  | failed
  | killed
  deriving DecidableEq

/-- Whether a run state is terminal. -/
def RState.isTerminal : RState → Bool
  | RState.succeeded => true
  | RState.failed => true
  | RState.killed => true
  | _ => false

/-- Lookup in a Nat-keyed association list. -/
def nlookup {β : Type} : List (Nat × β) → Nat → Option β
  | [], _ => none
  | (k, v) :: ps, key => if k = key then some v else nlookup ps key

/-- Replace the value stored at a key of a Nat-keyed association list. -/
def nset {β : Type} : List (Nat × β) → Nat → β → List (Nat × β)
  | [], _, _ => []
  | (k, w) :: ps, key, v => if k = key then (k, v) :: ps else (k, w) :: nset ps key v

/-- Remove the entries stored at a key of a Nat-keyed association list. -/
def nerase {β : Type} : List (Nat × β) → Nat → List (Nat × β)
  | [], _ => []
  | (k, v) :: ps, key => if k = key then nerase ps key else (k, v) :: nerase ps key

theorem nlookup_nset_found {β : Type} (ps : List (Nat × β)) (key : Nat) (v w : β)
    (h : nlookup ps key = some w) : nlookup (nset ps key v) key = some v := by
  induction ps with
  | nil => simp [nlookup] at h
  | cons p rest ih =>
    obtain ⟨k, u⟩ := p
    by_cases hk : k = key
    · simp [nset, nlookup, hk]
    · simp only [nlookup, if_neg hk] at h
      simp [nset, nlookup, hk, ih h]

theorem nlookup_nerase_self {β : Type} (ps : List (Nat × β)) (key : Nat) :
    nlookup (nerase ps key) key = none := by
  induction ps with
  | nil => rfl
  | cons p rest ih =>
    obtain ⟨k, u⟩ := p
    by_cases hk : k = key
    · simp [nerase, hk, ih]
    · simp [nerase, nlookup, hk, ih]

/-- Modelled from the spec: the engine state seen by kill_run — the run
    registry mapping run_id to a Run state and the Orphan Guard map from
    run_id to the OS process handle.  The engine implementation is not in the
    source tree. -/
structure Engine where
  runs : List (Nat × RState)
  guard : List (Nat × Nat)
  deriving DecidableEq

/-- Modelled from the spec: kill_run(run_id) — force immediate termination.
    A non-terminal run transitions atomically to killed and its process is
    deregistered from the Orphan Guard; a Run is immutable once terminal and
    exactly one of natural completion and forced termination wins, so for an
    already-terminal run the call is a no-op, as it is for an unknown id. -/
def kill_run (e : Engine) (r : Nat) : Engine :=
  match nlookup e.runs r with
  | none => e
  | some st =>
    if st.isTerminal then e
    else { runs := nset e.runs r RState.killed, guard := nerase e.guard r }

/-- Claim C5 counterexample: kill_run on a run that already completed
    naturally leaves its state succeeded, not killed — the claim's
    unconditional get_run(r).state == killed fails for terminal runs. -/
theorem c5_kill_terminal_counterexample :
    nlookup (kill_run { runs := [(1, RState.succeeded)], guard := [] } 1).runs 1 =
      some RState.succeeded ∧ RState.succeeded ≠ RState.killed := by
  exact ⟨rfl, by decide⟩

/-- Claim C5 amended: kill_run is idempotent — for every run r that is still
    non-terminal when kill_run(r) is first called, after the call returns
    get_run(r).state is killed and the Orphan Guard tracks no process for r,
    and a second kill_run(r) is a no-op that raises no error and changes no
    state. -/
theorem c5_kill_run_idempotent (e : Engine) (r : Nat) (st : RState)
    (hfound : nlookup e.runs r = some st) (hnt : st.isTerminal = false) :
    nlookup (kill_run e r).runs r = some RState.killed ∧
    nlookup (kill_run e r).guard r = none ∧
    kill_run (kill_run e r) r = kill_run e r := by
  have h1 : kill_run e r =
      { runs := nset e.runs r RState.killed, guard := nerase e.guard r } := by
    unfold kill_run
    rw [hfound]
    simp [hnt]
  have h2 : nlookup (kill_run e r).runs r = some RState.killed := by
    rw [h1]
    exact nlookup_nset_found e.runs r RState.killed st hfound
  refine ⟨h2, ?_, ?_⟩
  · rw [h1]
    exact nlookup_nerase_self e.guard r
  · conv_lhs => rw [kill_run]
    rw [h2]
    simp [RState.isTerminal]

/-- Witness for C5: a concrete engine with run 5 running and its process
    registered; kill_run kills it, clears the guard, and is idempotent. -/
theorem c5_kill_run_idempotent_witness :
    nlookup (kill_run { runs := [(5, RState.running)], guard := [(5, 77)] } 5).runs 5 =
      some RState.killed ∧
    nlookup (kill_run { runs := [(5, RState.running)], guard := [(5, 77)] } 5).guard 5 = none ∧
    kill_run (kill_run { runs := [(5, RState.running)], guard := [(5, 77)] } 5) 5 =
      kill_run { runs := [(5, RState.running)], guard := [(5, 77)] } 5 :=
  c5_kill_run_idempotent { runs := [(5, RState.running)], guard := [(5, 77)] } 5
    RState.running rfl rfl

/-- An OS process: its pid, its process group, and whether it is alive. -/
structure OsProc where
  pid : Nat
  pgid : Nat
  alive : Bool
  deriving DecidableEq

/-- An Orphan Guard registration: a run and the pid and process group of its
    spawned OS process. -/
structure GuardEntry where
  runId : Nat
  pid : Nat
  pgid : Nat
  deriving DecidableEq

/-- Modelled from the spec: the Orphan Guard registry of still-registered
    handles together with the OS process table it acts on. -/
structure GuardSys where
  entries : List GuardEntry
  procs : List OsProc
  deriving DecidableEq

/-- Forced termination of one registered handle: the signal targets the whole
    process group, so every process whose pid is the registered pid or whose
    group is the registered group stops being alive. -/
def terminateEntry (procs : List OsProc) (e : GuardEntry) : List OsProc :=
  procs.map (fun p =>
    if p.pid == e.pid || p.pgid == e.pgid then { p with alive := false } else p)

/-- Modelled from the spec: the Orphan Guard sweep run on remove_job with a
    running descendant and on engine shutdown — terminate every
    still-registered handle, then clear the registry, before returning. -/
def sweep (s : GuardSys) : GuardSys :=
  { entries := [], procs := s.entries.foldl terminateEntry s.procs }

/-- Whether a process is one that a guard entry tracks: the registered leaf
    process or any descendant in its process group. -/
def targeted (e : GuardEntry) (p : OsProc) : Prop := p.pid = e.pid ∨ p.pgid = e.pgid

theorem terminateEntry_kills (procs : List OsProc) (e : GuardEntry) :
    ∀ p ∈ terminateEntry procs e, p.alive = false ∨ (¬ targeted e p) := by
  intro p hp
  simp only [terminateEntry, List.mem_map] at hp
  rcases hp with ⟨p0, _, hmap⟩
  by_cases hc : (p0.pid == e.pid || p0.pgid == e.pgid) = true
  · rw [if_pos hc] at hmap
    subst hmap
    exact Or.inl rfl
  · rw [if_neg hc] at hmap
    subst hmap
    refine Or.inr ?_
    intro ht
    apply hc
    rcases ht with h | h <;> simp [h]

theorem terminateEntry_preserves_dead (procs : List OsProc) (e e2 : GuardEntry)
    (h : ∀ p ∈ procs, targeted e p → p.alive = false) :
    ∀ p ∈ terminateEntry procs e2, targeted e p → p.alive = false := by
  intro p hp ht
  simp only [terminateEntry, List.mem_map] at hp
  rcases hp with ⟨p0, hp0, hmap⟩
  by_cases hc : (p0.pid == e2.pid || p0.pgid == e2.pgid) = true
  · rw [if_pos hc] at hmap
    subst hmap
    rfl
  · rw [if_neg hc] at hmap
    subst hmap
    exact h p0 hp0 ht

theorem foldl_terminate_preserves (l : List GuardEntry) (procs : List OsProc)
    (e : GuardEntry) (h : ∀ p ∈ procs, targeted e p → p.alive = false) :
    ∀ p ∈ l.foldl terminateEntry procs, targeted e p → p.alive = false := by
  induction l generalizing procs with
  | nil => exact h
  | cons e2 rest ih =>
    exact ih (terminateEntry procs e2) (terminateEntry_preserves_dead procs e e2 h)

theorem foldl_terminate_kills (l : List GuardEntry) (procs : List OsProc)
    (e : GuardEntry) (he : e ∈ l) :
    ∀ p ∈ l.foldl terminateEntry procs, targeted e p → p.alive = false := by
  induction l generalizing procs with
  | nil => simp at he
  | cons e2 rest ih =>
    rcases List.mem_cons.mp he with h | h
    · subst h
      intro p hp ht
      refine foldl_terminate_preserves rest (terminateEntry procs e) e ?_ p hp ht
      intro p2 hp2 ht2
      rcases terminateEntry_kills procs e p2 hp2 with hd | hnt
      · exact hd
      · exact absurd ht2 hnt
    · exact ih (terminateEntry procs e2) h

/-- Claim C8: after an Orphan Guard sweep completes, none of the OS processes
    the sweep tracked remain alive — every process whose pid or process group
    was registered (shell pipeline descendants included) is dead in the
    resulting process table, so no spawned OS process outlives the engine. -/
theorem c8_sweep_kills_tracked (s : GuardSys) (e : GuardEntry) (he : e ∈ s.entries)
    (p : OsProc) (hp : p ∈ (sweep s).procs) (ht : targeted e p) : p.alive = false :=
  foldl_terminate_kills s.entries s.procs e he p hp ht

/-- Witness for C8: a concrete sweep over one registered handle kills the
    tracked process. -/
theorem c8_sweep_kills_tracked_witness :
    ({ pid := 10, pgid := 100, alive := false } : OsProc).alive = false :=
  c8_sweep_kills_tracked
    { entries := [{ runId := 1, pid := 10, pgid := 100 }],
      procs := [{ pid := 10, pgid := 100, alive := true }] }
    { runId := 1, pid := 10, pgid := 100 } (by decide)
    { pid := 10, pgid := 100, alive := false } (by decide) (Or.inl rfl)

/-- Leap years of the proleptic Gregorian calendar. -/
def isLeap (y : Nat) : Bool := y % 4 == 0 && (y % 100 != 0 || y % 400 == 0)

/-- Days in a month of a year. -/
def daysInMonth (y m : Nat) : Nat :=
  if m = 2 then (if isLeap y then 29 else 28)
  else if m = 4 ∨ m = 6 ∨ m = 9 ∨ m = 11 then 30
  else 31

/-- Days in a year. -/
def daysInYear (y : Nat) : Nat := if isLeap y then 366 else 365

/-- Civil (broken-down) time: the fields a five-field cron spec constrains. -/
structure CivilTime where
  year : Nat
  month : Nat
  day : Nat
  hour : Nat
  minute : Nat
  dow : Nat
  deriving DecidableEq

/-- Resolve a day index into a year and a day offset by walking years. -/
def resolveYear : Nat → Nat → Nat → Nat × Nat
  | 0, y, d => (y, d)
  | fuel + 1, y, d =>
    if d < daysInYear y then (y, d) else resolveYear fuel (y + 1) (d - daysInYear y)

/-- Resolve a day offset within a year into month and day by walking months. -/
def resolveMonth : Nat → Nat → Nat → Nat → Nat × Nat
  | 0, _, m, d => (m, d)
  | fuel + 1, y, m, d =>
    if d < daysInMonth y m then (m, d) else resolveMonth fuel y (m + 1) (d - daysInMonth y m)

/-- Modelled from the spec: the time-zone-aware clock consumed by the engine —
    minutes since 2000-01-01 00:00 (a Saturday) in the configured zone, broken
    down into civil time. -/
def civilOfMinutes (t : Nat) : CivilTime :=
  let days := t / 1440
  let yd := resolveYear 5000 2000 days
  let md := resolveMonth 12 yd.1 1 yd.2
  { year := yd.1, month := md.1, day := md.2 + 1,
    hour := (t / 60) % 24, minute := t % 60, dow := (days + 6) % 7 }

/-- A five-field cron schedule (minute, hour, day of month, month, day of
    week), each field a wildcard (none) or an allowed set, plus the configured
    time zone as a minute offset. -/
structure CronSpec where
  minute : Option (List Nat)
  hour : Option (List Nat)
  dom : Option (List Nat)
  month : Option (List Nat)
  dow : Option (List Nat)
  tz : Nat
  deriving DecidableEq

/-- A cron field matches a value when it is a wildcard or lists the value. -/
def fieldMatch (f : Option (List Nat)) (v : Nat) : Bool :=
  match f with
  | none => true
  | some xs => xs.contains v

/-- Modelled from the spec: whether a timestamp matches the five-field spec in
    the configured time zone. -/
def cronMatches (c : CronSpec) (t : Nat) : Bool :=
  let ct := civilOfMinutes (t + c.tz)
  fieldMatch c.minute ct.minute && fieldMatch c.hour ct.hour &&
    fieldMatch c.dom ct.day && fieldMatch c.month ct.month && fieldMatch c.dow ct.dow

/-- Linear search for the first matching timestamp at or after a start. -/
def findNextMatch (c : CronSpec) : Nat → Nat → Option Nat
  | 0, _ => none
  | fuel + 1, u => if cronMatches c u then some u else findNextMatch c fuel (u + 1)

/-- Modelled from the spec: cron next-fire computation — the earliest
    timestamp strictly after the previous fire time matching the five-field
    spec in the configured time zone, searched minute by minute within the
    given horizon. -/
def next_fire_time (c : CronSpec) (fuel t : Nat) : Option Nat :=
  findNextMatch c fuel (t + 1)

theorem findNextMatch_spec (c : CronSpec) (fuel : Nat) :
    ∀ s t, findNextMatch c fuel s = some t →
      s ≤ t ∧ cronMatches c t = true ∧ ∀ u, s ≤ u → u < t → cronMatches c u = false := by
  induction fuel with
  | zero =>
    intro s t h
    simp [findNextMatch] at h
  | succ fuel ih =>
    intro s t h
    by_cases hm : cronMatches c s = true
    · rw [findNextMatch, if_pos hm] at h
      obtain rfl : s = t := Option.some_inj.mp h
      exact ⟨le_refl s, hm, fun u h1 h2 => absurd (lt_of_le_of_lt h1 h2) (lt_irrefl s)⟩
    · rw [findNextMatch, if_neg hm] at h
      obtain ⟨h1, h2, h3⟩ := ih (s + 1) t h
      refine ⟨le_trans (Nat.le_succ s) h1, h2, ?_⟩
      intro u hu1 hu2
      rcases Nat.lt_or_ge u (s + 1) with hlt | hge
      · have hus : u = s := Nat.le_antisymm (Nat.lt_succ_iff.mp hlt) hu1
        subst hus
        simpa using hm
      · exact h3 u hge hu2

/-- Claim C6: for every cron schedule and previous fire time t, a computed
    next_fire_time is strictly greater than t and is the earliest timestamp
    matching the five-field spec in the configured time zone (no strictly
    earlier timestamp after t matches). -/
theorem c6_cron_next_fire (c : CronSpec) (fuel t nxt : Nat)
    (h : next_fire_time c fuel t = some nxt) :
    t < nxt ∧ cronMatches c nxt = true ∧
      ∀ u, t < u → u < nxt → cronMatches c u = false := by
  obtain ⟨h1, h2, h3⟩ := findNextMatch_spec c fuel (t + 1) nxt h
  exact ⟨Nat.lt_of_succ_le h1, h2, fun u hu1 hu2 => h3 u (Nat.succ_le_of_lt hu1) hu2⟩

/-- Witness for C6: the every-minute schedule, previous fire at minute 0,
    fires next at minute 1, with no earlier match. -/
theorem c6_cron_next_fire_witness :
    0 < 1 ∧
    cronMatches { minute := none, hour := none, dom := none, month := none,
                  dow := none, tz := 0 } 1 = true ∧
      ∀ u, 0 < u → u < 1 →
        cronMatches { minute := none, hour := none, dom := none, month := none,
                      dow := none, tz := 0 } u = false :=
  c6_cron_next_fire
    { minute := none, hour := none, dom := none, month := none, dow := none, tz := 0 }
    1 0 1 (by decide)

/-- The per-job concurrency policies. -/
inductive Policy where
  | skip
  | queue
  | overlap
  deriving DecidableEq

/-- A row of the scheduler's run registry: the run's job and its state. -/
structure RunInfo where
  job : Nat
  state : RState
  deriving DecidableEq

/-- Modelled from the spec: the scheduler-visible state — the append-only run
    registry keyed by the globally monotonic run id, and the next id.  The
    scheduler implementation is not in the source tree. -/
structure Sched where
  runs : List (Nat × RunInfo)
  nextId : Nat
  deriving DecidableEq

/-- Whether a registry row is a non-terminal run of job j. -/
def runNonTerm (j : Nat) (e : Nat × RunInfo) : Bool :=
  e.2.job == j && !e.2.state.isTerminal

/-- The number of non-terminal runs of a job. -/
def nonTerminalCount (s : Sched) (j : Nat) : Nat :=
  (s.runs.filter (runNonTerm j)).length

/-- Whether some run of a job is non-terminal. -/
def hasNonTerminal (s : Sched) (j : Nat) : Bool :=
  s.runs.any (runNonTerm j)

/-- Creation of a new pending Run of job j under the next global run id. -/
def addRun (s : Sched) (j : Nat) : Sched :=
  { runs := s.runs ++ [(s.nextId, { job := j, state := RState.pending })],
    nextId := s.nextId + 1 }

/-- State update of the run stored under id i. -/
def setStateAt : List (Nat × RunInfo) → Nat → RState → List (Nat × RunInfo)
  | [], _, _ => []
  | (k, info) :: rest, i, st =>
    if k = i then (k, { info with state := st }) :: rest
    else (k, info) :: setStateAt rest i st

/-- State update of run i in the scheduler state. -/
def setRunState (s : Sched) (i : Nat) (st : RState) : Sched :=
  { runs := setStateAt s.runs i st, nextId := s.nextId }

/-- Modelled from the spec: a due tick of job j under the given concurrency
    policy — skip creates no Run while a prior Run of the job is non-terminal
    (the tick only recomputes the next fire time); queue creates the Run now
    but defers its dispatch; overlap creates and dispatches immediately. -/
def tickJob (pol : Nat → Policy) (s : Sched) (j : Nat) : Sched :=
  match pol j with
  | Policy.skip => if hasNonTerminal s j then s else addRun s j
  | Policy.queue => addRun s j
  | Policy.overlap => addRun s j

/-- Modelled from the spec: the transitions that touch the run registry — a
    due tick, the dispatch of a pending run (for a queue job only once every
    earlier run of the job is terminal, preserving per-job FIFO), and the
    terminal transition of a running run performed exactly once by its
    backend. -/
inductive SchedStep (pol : Nat → Policy) : Sched → Sched → Prop where
  | tick (s : Sched) (j : Nat) : SchedStep pol s (tickJob pol s j)
  | dispatch (s : Sched) (i j : Nat)
      (h : nlookup s.runs i = some { job := j, state := RState.pending })
      (hfifo : pol j = Policy.queue →
        ∀ i2 inf2, nlookup s.runs i2 = some inf2 → inf2.job = j → i2 < i →
          inf2.state.isTerminal = true) :
      SchedStep pol s (setRunState s i RState.running)
  | finish (s : Sched) (i j : Nat) (st : RState) (hterm : st.isTerminal = true)
      (h : nlookup s.runs i = some { job := j, state := RState.running }) :
      SchedStep pol s (setRunState s i st)

/-- Scheduler states reachable from the empty registry. -/
inductive SchedReach (pol : Nat → Policy) : Sched → Prop where
  | init : SchedReach pol { runs := [], nextId := 0 }
  | step (s s2 : Sched) (h : SchedReach pol s) (hs : SchedStep pol s s2) : SchedReach pol s2

theorem nonTerminalCount_addRun_self (s : Sched) (j : Nat) :
    nonTerminalCount (addRun s j) j = nonTerminalCount s j + 1 := by
  simp [nonTerminalCount, addRun, List.filter_append, runNonTerm, RState.isTerminal]

theorem nonTerminalCount_addRun_other (s : Sched) (j j2 : Nat) (h : j ≠ j2) :
    nonTerminalCount (addRun s j2) j = nonTerminalCount s j := by
  simp [nonTerminalCount, addRun, List.filter_append, runNonTerm, Ne.symm h]

theorem nonTerminalCount_eq_zero_of_not_has (s : Sched) (j : Nat)
    (h : hasNonTerminal s j = false) : nonTerminalCount s j = 0 := by
  rw [hasNonTerminal, List.any_eq_false] at h
  rw [nonTerminalCount, List.length_eq_zero, List.filter_eq_nil_iff]
  exact fun a ha => by simpa using h a ha

theorem count_setStateAt_le (l : List (Nat × RunInfo)) (i : Nat) (st : RState) (j : Nat)
    (h : ∀ info, nlookup l i = some info → info.state.isTerminal = false) :
    (List.filter (runNonTerm j) (setStateAt l i st)).length ≤
      (List.filter (runNonTerm j) l).length := by
  induction l with
  | nil => simp [setStateAt]
  | cons e rest ih =>
    obtain ⟨k, info⟩ := e
    by_cases hk : k = i
    · rw [setStateAt, if_pos hk]
      have hinfo : info.state.isTerminal = false := h info (by simp [nlookup, hk])
      by_cases hj : (info.job == j) = true
      · cases hst : st.isTerminal <;>
          simp [List.filter_cons, runNonTerm, hj, hinfo, hst, Nat.le_succ_of_le]
      · simp [List.filter_cons, runNonTerm, hj]
    · rw [setStateAt, if_neg hk]
      have h2 : ∀ info2, nlookup rest i = some info2 → info2.state.isTerminal = false := by
        intro info2 hi2
        exact h info2 (by rw [nlookup, if_neg hk]; exact hi2)
      by_cases hp : runNonTerm j (k, info) = true <;>
        simp [List.filter_cons, hp, ih h2, Nat.succ_le_succ (ih h2)]

theorem schedReach_skip_invariant (pol : Nat → Policy) (s : Sched)
    (h : SchedReach pol s) :
    ∀ j, pol j = Policy.skip → nonTerminalCount s j ≤ 1 := by
  induction h with
  | init =>
    intro j _
    simp [nonTerminalCount]
  | step s1 s2 hreach hstep ih =>
    intro j hj
    cases hstep with
    | tick j2 =>
      cases hp : pol j2 with
      | skip =>
        simp only [tickJob, hp]
        by_cases hh : hasNonTerminal s1 j2 = true
        · rw [if_pos hh]
          exact ih j hj
        · have hh2 : hasNonTerminal s1 j2 = false := by
            cases hb : hasNonTerminal s1 j2
            · rfl
            · exact absurd hb hh
          rw [if_neg hh]
          by_cases hjj : j = j2
          · subst hjj
            rw [nonTerminalCount_addRun_self, nonTerminalCount_eq_zero_of_not_has s1 j hh2]
          · rw [nonTerminalCount_addRun_other s1 j j2 hjj]
            exact ih j hj
      | queue =>
        have hjj : j ≠ j2 := fun he => by rw [he, hp] at hj; exact Policy.noConfusion hj
        simp only [tickJob, hp]
        rw [nonTerminalCount_addRun_other s1 j j2 hjj]
        exact ih j hj
      | overlap =>
        have hjj : j ≠ j2 := fun he => by rw [he, hp] at hj; exact Policy.noConfusion hj
        simp only [tickJob, hp]
        rw [nonTerminalCount_addRun_other s1 j j2 hjj]
        exact ih j hj
    | dispatch i j2 hl hfifo =>
      refine le_trans (count_setStateAt_le s1.runs i RState.running j ?_) (ih j hj)
      intro info hinfo
      rw [hl] at hinfo
      obtain rfl : ({ job := j2, state := RState.pending } : RunInfo) = info :=
        Option.some_inj.mp hinfo
      rfl
    | finish i j2 st hterm hl =>
      refine le_trans (count_setStateAt_le s1.runs i st j ?_) (ih j hj)
      intro info hinfo
      rw [hl] at hinfo
      obtain rfl : ({ job := j2, state := RState.running } : RunInfo) = info :=
        Option.some_inj.mp hinfo
      rfl

/-- The all-skip policy table used in the claim C7 witness. -/
def polSkip : Nat → Policy := fun _ => Policy.skip

/-- A reachable state for the claim C7 witness: one tick of job 0. -/
def c7sW : Sched := tickJob polSkip { runs := [], nextId := 0 } 0

/-- Claim C7 amended: for every job with concurrency policy skip, in every
    reachable scheduler state at most one Run of that job is non-terminal
    (pending or running), and a due tick while a prior Run is non-terminal
    creates no new Run.  Under policy queue the bound fails: a due tick
    creates the Run immediately (deferring only its dispatch), so a second
    non-terminal Run can coexist with the running one. -/
theorem c7_skip_policy (pol : Nat → Policy) (s : Sched)
    (h : SchedReach pol s) (j : Nat) (hj : pol j = Policy.skip) :
    nonTerminalCount s j ≤ 1 ∧
      (hasNonTerminal s j = true → tickJob pol s j = s) := by
  refine ⟨schedReach_skip_invariant pol s h j hj, ?_⟩
  intro hh
  simp [tickJob, hj, hh]

/-- Witness for C7: the reachable state after one tick of a skip job
    satisfies the bound and absorbs further due ticks. -/
theorem c7_skip_policy_witness :
    nonTerminalCount c7sW 0 ≤ 1 ∧
      (hasNonTerminal c7sW 0 = true → tickJob polSkip c7sW 0 = c7sW) :=
  c7_skip_policy polSkip c7sW
    (SchedReach.step _ _ SchedReach.init (SchedStep.tick _ 0)) 0 rfl

/-- The all-queue policy table used in the claim C7 counterexample. -/
def polQ : Nat → Policy := fun _ => Policy.queue

/-- Counterexample trace, first step: a due tick creates run 0 of job 0. -/
def c7qs1 : Sched := tickJob polQ { runs := [], nextId := 0 } 0

/-- Counterexample trace, second step: run 0 is dispatched. -/
def c7qs2 : Sched := setRunState c7qs1 0 RState.running

/-- Counterexample trace, third step: a due tick while run 0 still runs. -/
def c7qs3 : Sched := tickJob polQ c7qs2 0

/-- Claim C7 counterexample: under policy queue, a due tick while the prior
    Run is still running creates a new pending Run at once, reaching a state
    in which two Runs of the job are non-terminal — the at-most-one bound
    claimed for skip and queue fails for queue. -/
theorem c7_queue_counterexample :
    SchedReach polQ c7qs3 ∧ polQ 0 = Policy.queue ∧ nonTerminalCount c7qs3 0 = 2 := by
  refine ⟨?_, rfl, by decide⟩
  have h1 : SchedReach polQ c7qs1 :=
    SchedReach.step _ _ SchedReach.init (SchedStep.tick _ 0)
  have h2 : SchedReach polQ c7qs2 :=
    SchedReach.step _ _ h1
      (SchedStep.dispatch c7qs1 0 0 (by decide)
        (fun _ i2 inf2 _ _ hlt => absurd hlt (Nat.not_lt_zero i2)))
  exact SchedReach.step _ _ h2 (SchedStep.tick _ 0)
